import Mathlib

/-!
Shallow embedding of `uhd::time_spec_t`
(src/host/include/uhd/types/time_spec.hpp).

Modelling conventions:
* C++ `double` values are embedded as exact rationals (`ℚ`).  Every IEEE-754
  double is a rational number, so every concrete double input is expressible;
  the embedding computes the arithmetic exactly (intermediate floating-point
  rounding is not modelled).
* C++ `int64_t` is embedded as `ℤ`.  `static_cast<int64_t>(double)` truncates
  toward zero, embedded as `qtrunc`; `int64_t` division truncates toward
  zero, embedded as `Int.tdiv`.
* The mutator `set_from` is embedded as a pure constructor returning the
  resulting value; member operators become functions taking the receiver.
-/

namespace uhd

/-- Truncation toward zero of a real value, the semantics of C++
`static_cast<int64_t>(double)` (and of `std::trunc` once its result is cast
back to an integer). -/
def qtrunc (q : ℚ) : ℤ :=
  if 0 ≤ q then ⌊q⌋ else ⌈q⌉

/-- The private storage of `time_spec_t`: `int64_t _full_secs` and
`double _frac_secs` (time_spec.hpp lines 44-45). -/
structure time_spec_t where
  full_secs : ℤ
  frac_secs : ℚ

/-- `get_full_secs()` (lines 166-169). -/
def time_spec_t.get_full_secs (t : time_spec_t) : ℤ := t.full_secs

/-- `get_frac_secs()` (lines 175-178). -/
def time_spec_t.get_frac_secs (t : time_spec_t) : ℚ := t.frac_secs

/-- `set_from(full_secs, frac_secs)` (lines 96-105): split `frac_secs` by
truncation, carry the integer part into `_full_secs`, and borrow 1 when the
remaining fraction is negative.  Modelled as a pure constructor. -/
def set_from (full_secs : ℤ) (frac_secs : ℚ) : time_spec_t :=
  let frac_int : ℤ := qtrunc frac_secs
  let full : ℤ := full_secs + frac_int
  let frac : ℚ := frac_secs - (frac_int : ℚ)
  if frac < 0 then ⟨full - 1, frac + 1⟩ else ⟨full, frac⟩

/-- The two-argument constructor `time_spec_t(int64_t full_secs, double
frac_secs)` (lines 67-70), which delegates to `set_from`. -/
def time_spec_t.ofSecsPair (full_secs : ℤ) (frac_secs : ℚ) : time_spec_t :=
  set_from full_secs frac_secs

/-- The one-argument constructor `time_spec_t(double secs)` (line 76). -/
def time_spec_t.ofSecs (secs : ℚ) : time_spec_t :=
  time_spec_t.ofSecsPair 0 secs

/-- The constructor `time_spec_t(int64_t, int64_t tick_count, double
tick_rate)` (lines 85-89). -/
def time_spec_t.ofTicksAt (full_secs tick_count : ℤ) (tick_rate : ℚ) : time_spec_t :=
  time_spec_t.ofSecsPair full_secs ((tick_count : ℚ) / tick_rate)

/-- `fast_llround(x) = static_cast<int64_t>(x + 0.5)` (lines 37-40). -/
def fast_llround (x : ℚ) : ℤ :=
  qtrunc (x + 1 / 2)

/-- `from_ticks(ticks, tick_rate)` (lines 113-121). -/
def from_ticks (ticks : ℤ) (tick_rate : ℚ) : time_spec_t :=
  let rate_i : ℤ := qtrunc tick_rate
  let rate_f : ℚ := tick_rate - (rate_i : ℚ)
  let secs_full : ℤ := Int.tdiv ticks rate_i
  let ticks_error : ℤ := ticks - secs_full * rate_i
  let ticks_frac : ℚ := (ticks_error : ℚ) - (secs_full : ℚ) * rate_f
  time_spec_t.ofSecsPair secs_full (ticks_frac / tick_rate)

/-- `get_tick_count(tick_rate)` (lines 129-132). -/
def time_spec_t.get_tick_count (t : time_spec_t) (tick_rate : ℚ) : ℤ :=
  fast_llround (t.get_frac_secs * tick_rate)

/-- `to_ticks(tick_rate)` (lines 140-148). -/
def time_spec_t.to_ticks (t : time_spec_t) (tick_rate : ℚ) : ℤ :=
  let rate_i : ℤ := qtrunc tick_rate
  let rate_f : ℚ := tick_rate - (rate_i : ℚ)
  let ticks_full : ℤ := t.get_full_secs * rate_i
  let ticks_error : ℚ := (t.get_full_secs : ℚ) * rate_f
  let ticks_frac : ℚ := t.get_frac_secs * tick_rate
  ticks_full + fast_llround (ticks_error + ticks_frac)

/-- `get_real_secs()` (lines 157-160). -/
def time_spec_t.get_real_secs (t : time_spec_t) : ℚ :=
  (t.get_full_secs : ℚ) + t.get_frac_secs

/-- The spec's normalization invariant: the fractional component lies in
the half-open interval [0, 1). -/
def normalized (t : time_spec_t) : Prop :=
  0 ≤ t.frac_secs ∧ t.frac_secs < 1

/-- `operator+(time_spec_t, time_spec_t)` (lines 189-193): componentwise sum
handed to the normalizing constructor. -/
def ts_add (l r : time_spec_t) : time_spec_t :=
  time_spec_t.ofSecsPair (l.get_full_secs + r.get_full_secs)
    (l.get_frac_secs + r.get_frac_secs)

/-- `operator+=(time_spec_t)` (lines 194-199): same sums via `set_from`;
modelled as the value the receiver holds afterwards. -/
def ts_add_assign (t rhs : time_spec_t) : time_spec_t :=
  set_from (t.get_full_secs + rhs.get_full_secs) (t.get_frac_secs + rhs.get_frac_secs)

/-- `operator+(time_spec_t, double)` (lines 200-205): the double is split by
`std::trunc` before combining. -/
def ts_add_real (l : time_spec_t) (r : ℚ) : time_spec_t :=
  let full_secs : ℚ := (qtrunc r : ℚ)
  time_spec_t.ofSecsPair (l.get_full_secs + qtrunc full_secs)
    (l.get_frac_secs + (r - full_secs))

/-- `operator+=(double)` (lines 206-212). -/
def ts_add_real_assign (t : time_spec_t) (rhs : ℚ) : time_spec_t :=
  let full_secs : ℚ := (qtrunc rhs : ℚ)
  set_from (t.get_full_secs + qtrunc full_secs) (t.get_frac_secs + (rhs - full_secs))

/-- `operator-(time_spec_t, time_spec_t)` (lines 214-218). -/
def ts_sub (l r : time_spec_t) : time_spec_t :=
  time_spec_t.ofSecsPair (l.get_full_secs - r.get_full_secs)
    (l.get_frac_secs - r.get_frac_secs)

/-- `operator-=(time_spec_t)` (lines 219-224). -/
def ts_sub_assign (t rhs : time_spec_t) : time_spec_t :=
  set_from (t.get_full_secs - rhs.get_full_secs) (t.get_frac_secs - rhs.get_frac_secs)

/-- `operator-(time_spec_t, double)` (lines 225-230). -/
def ts_sub_real (l : time_spec_t) (r : ℚ) : time_spec_t :=
  let full_secs : ℚ := (qtrunc r : ℚ)
  time_spec_t.ofSecsPair (l.get_full_secs - qtrunc full_secs)
    (l.get_frac_secs - (r - full_secs))

/-- `operator-=(double)` (lines 231-237). -/
def ts_sub_real_assign (t : time_spec_t) (rhs : ℚ) : time_spec_t :=
  let full_secs : ℚ := (qtrunc rhs : ℚ)
  set_from (t.get_full_secs - qtrunc full_secs) (t.get_frac_secs - (rhs - full_secs))

/-- `operator==` (lines 240-244): exact componentwise equality. -/
def ts_eq (l r : time_spec_t) : Prop :=
  l.get_full_secs = r.get_full_secs ∧ l.get_frac_secs = r.get_frac_secs

/-- `operator!=` (lines 247-251). -/
def ts_ne (l r : time_spec_t) : Prop :=
  l.get_full_secs ≠ r.get_full_secs ∨ l.get_frac_secs ≠ r.get_frac_secs

/-- `operator<` (lines 254-259): whole seconds first, ties broken by the
fractional component. -/
def ts_lt (l r : time_spec_t) : Prop :=
  l.get_full_secs < r.get_full_secs ∨
    (l.get_full_secs = r.get_full_secs ∧ l.get_frac_secs < r.get_frac_secs)

/-- `operator>` (lines 262-267). -/
def ts_gt (l r : time_spec_t) : Prop :=
  l.get_full_secs > r.get_full_secs ∨
    (l.get_full_secs = r.get_full_secs ∧ l.get_frac_secs > r.get_frac_secs)

/-- `operator<=` (lines 270-275). -/
def ts_le (l r : time_spec_t) : Prop :=
  l.get_full_secs < r.get_full_secs ∨
    (l.get_full_secs = r.get_full_secs ∧ l.get_frac_secs ≤ r.get_frac_secs)

/-- `operator>=` (lines 278-283). -/
def ts_ge (l r : time_spec_t) : Prop :=
  l.get_full_secs > r.get_full_secs ∨
    (l.get_full_secs = r.get_full_secs ∧ l.get_frac_secs ≥ r.get_frac_secs)

/-- The mathematical round-half-up function the spec describes for the
fractional-to-tick conversion: `round(x)` rounding ties toward positive
infinity, i.e. `⌊x + 1/2⌋`. -/
def round_half_up (x : ℚ) : ℤ :=
  ⌊x + 1 / 2⌋


/-! ## Stream output (`operator<<`, lines 286-292)

The C++ insertion operator prints `get_full_secs()` as a decimal integer and
appends the rendering of `get_frac_secs()` produced by a `std::stringstream`
at `setprecision(std::numeric_limits<double>::digits10 + 1)` (= 16
significant digits) with `showpoint`, with its first character removed by
`substr(1)`.  The next definitions model that default floating-point
formatting (C++ `%g` style: fixed notation while the decimal exponent is at
least -4, scientific notation below that, trailing zeros kept by
`showpoint`) for the exact rational value of the double, restricted to
fractional values in [0, 1), the range `set_from` guarantees for every
constructed `time_spec_t`.  Strings are modelled as `List Char`. -/

/-- Decimal digit characters of a natural number, most significant digit
first, prepended to `acc`. -/
def nat_chars (m : ℕ) (acc : List Char) : List Char :=
  let d : Char := Char.ofNat (48 + m % 10)
  if _h : m < 10 then d :: acc else nat_chars (m / 10) (d :: acc)
termination_by m
decreasing_by omega

/-- The characters `std::ostream` prints for an `int64_t`. -/
def int_chars (i : ℤ) : List Char :=
  if i < 0 then '-' :: nat_chars i.natAbs [] else nat_chars i.natAbs []

/-- Round half to even, the rounding a correctly-rounding decimal conversion
applies when cutting a value to a fixed number of significant digits. -/
def rhe (q : ℚ) : ℤ :=
  if q - ⌊q⌋ < 1 / 2 then ⌊q⌋
  else if 1 / 2 < q - ⌊q⌋ then ⌊q⌋ + 1
  else if Even ⌊q⌋ then ⌊q⌋ else ⌊q⌋ + 1

/-- Fuel-bounded count of leading zero digits after the decimal point of a
positive value below 1/10 (0 when `1/10 ≤ q`). -/
def lz_go (fuel : ℕ) (q : ℚ) : ℕ :=
  if _h : fuel = 0 then 0
  else if 1 / 10 ≤ q then 0
  else lz_go (fuel - 1) (q * 10) + 1
termination_by fuel
decreasing_by omega

/-- Leading zero digits after the decimal point of `q`; for `0 < q` the
denominator bounds the count, so it is enough fuel. -/
def lead_zeros (q : ℚ) : ℕ := lz_go q.den q

/-- The 16-significant-digit `showpoint` default-format rendering of a
double whose exact value is `q ∈ [0, 1)`: the digit characters the C++
`std::stringstream` of `operator<<` produces before `substr(1)` is taken.
The value is scaled to 16 significant digits and rounded; fixed notation is
used while the count of leading zeros is at most 3 (decimal exponent
≥ -4), scientific notation (`d.ddd...e-0E`) otherwise; a round-up that
carries into a 17th digit shifts the exponent by one. -/
def frac_chars (q : ℚ) : List Char :=
  if q ≤ 0 then '0' :: '.' :: List.replicate 15 '0'
  else
    let z0 : ℕ := lead_zeros q
    let m0 : ℤ := rhe (q * 10 ^ (z0 + 16))
    if m0 = 10 ^ 16 ∧ z0 = 0 then '1' :: '.' :: List.replicate 15 '0'
    else
      let z : ℕ := if m0 = 10 ^ 16 then z0 - 1 else z0
      let m : ℤ := if m0 = 10 ^ 16 then 10 ^ 15 else m0
      let digits : List Char := nat_chars m.natAbs []
      if z ≤ 3 then '0' :: '.' :: (List.replicate z '0' ++ digits)
      else
        digits.take 1 ++ '.' :: (digits.drop 1 ++ 'e' :: '-' ::
          (if z + 1 < 10 then '0' :: nat_chars (z + 1) [] else nat_chars (z + 1) []))

/-- `operator<<` (lines 286-292): the whole-seconds component rendered as a
decimal integer, directly concatenated with the fractional rendering with
its first character dropped (`substr(1)`). -/
def ts_stream_out (t : time_spec_t) : List Char :=
  int_chars t.get_full_secs ++ (frac_chars t.get_frac_secs).drop 1

/-! ## Helper lemmas -/

/-! ## Normalization lemmas for `set_from` -/

theorem set_from_frac_nonneg (s : ℤ) (f : ℚ) : 0 ≤ (set_from s f).frac_secs := by
  simp only [set_from, qtrunc]
  by_cases h0 : 0 ≤ f
  · have h1 : (⌊f⌋ : ℚ) ≤ f := Int.floor_le f
    simp only [if_pos h0]
    split <;> dsimp only <;> linarith
  · have h1 : (⌈f⌉ : ℚ) < f + 1 := Int.ceil_lt_add_one f
    simp only [if_neg h0]
    split <;> dsimp only <;> linarith

theorem set_from_frac_lt_one (s : ℤ) (f : ℚ) : (set_from s f).frac_secs < 1 := by
  simp only [set_from, qtrunc]
  by_cases h0 : 0 ≤ f
  · have h1 : f - 1 < (⌊f⌋ : ℚ) := Int.sub_one_lt_floor f
    simp only [if_pos h0]
    split <;> dsimp only <;> linarith
  · have h1 : f ≤ (⌈f⌉ : ℚ) := Int.le_ceil f
    simp only [if_neg h0]
    split <;> dsimp only <;> linarith

theorem set_from_normalized (s : ℤ) (f : ℚ) : normalized (set_from s f) :=
  ⟨set_from_frac_nonneg s f, set_from_frac_lt_one s f⟩

theorem set_from_sum (s : ℤ) (f : ℚ) :
    ((set_from s f).full_secs : ℚ) + (set_from s f).frac_secs = (s : ℚ) + f := by
  simp only [set_from]
  split <;> dsimp only <;> push_cast <;> ring


/-! ## Evaluation lemmas for the recursive rendering helpers -/

theorem nat_chars_last (m : ℕ) (acc : List Char) (h : m < 10) :
    nat_chars m acc = Char.ofNat (48 + m % 10) :: acc := by
  conv_lhs => rw [nat_chars.eq_def]
  simp [h]

theorem nat_chars_step (m : ℕ) (acc : List Char) (h : ¬m < 10) :
    nat_chars m acc = nat_chars (m / 10) (Char.ofNat (48 + m % 10) :: acc) := by
  conv_lhs => rw [nat_chars.eq_def]
  simp [h]

theorem lz_go_stop (fuel : ℕ) (q : ℚ) (h : ¬fuel = 0) (h2 : 1 / 10 ≤ q) :
    lz_go fuel q = 0 := by
  conv_lhs => rw [lz_go.eq_def]
  rw [dif_neg h, if_pos h2]

theorem lz_go_step (fuel : ℕ) (q : ℚ) (h : ¬fuel = 0) (h2 : ¬(1 / 10 ≤ q)) :
    lz_go fuel q = lz_go (fuel - 1) (q * 10) + 1 := by
  conv_lhs => rw [lz_go.eq_def]
  rw [dif_neg h, if_neg h2]

theorem frac_chars_fixed_eq (q : ℚ) (z : ℕ) (m : ℤ)
    (hq : ¬q ≤ 0) (hz : lead_zeros q = z) (hm : rhe (q * 10 ^ (z + 16)) = m)
    (hm16 : ¬m = 10 ^ 16) (hz3 : z ≤ 3) :
    frac_chars q = '0' :: '.' :: (List.replicate z '0' ++ nat_chars m.natAbs []) := by
  simp only [frac_chars, hz, hm]
  simp only [if_neg hq, if_neg (show ¬(m = 10 ^ 16 ∧ z = 0) from fun h => hm16 h.1),
    if_neg hm16, if_pos hz3]

theorem frac_chars_sci_eq (q : ℚ) (z : ℕ) (m : ℤ)
    (hq : ¬q ≤ 0) (hz : lead_zeros q = z) (hm : rhe (q * 10 ^ (z + 16)) = m)
    (hm16 : ¬m = 10 ^ 16) (hz3 : ¬z ≤ 3) (hz10 : z + 1 < 10) :
    frac_chars q = (nat_chars m.natAbs []).take 1 ++ '.' ::
      ((nat_chars m.natAbs []).drop 1 ++ 'e' :: '-' :: '0' :: nat_chars (z + 1) []) := by
  simp only [frac_chars, hz, hm]
  simp only [if_neg hq, if_neg (show ¬(m = 10 ^ 16 ∧ z = 0) from fun h => hm16 h.1),
    if_neg hm16, if_neg hz3, if_pos hz10]

set_option maxRecDepth 4000 in
theorem ts_stream_out_quarter : ts_stream_out (time_spec_t.ofSecsPair 5 (1 / 4)) =
    ['5', '.', '2', '5'] ++ List.replicate 14 '0' := by
  have ht : time_spec_t.ofSecsPair 5 (1 / 4) = ⟨5, 1 / 4⟩ := by
    norm_num [time_spec_t.ofSecsPair, set_from, qtrunc]
  rw [ht]
  simp only [ts_stream_out, time_spec_t.get_full_secs, time_spec_t.get_frac_secs]
  rw [frac_chars_fixed_eq (1 / 4) 0 (25 * 10 ^ 14) (by norm_num)
    (by norm_num [lead_zeros, lz_go_stop]) (by norm_num [rhe]) (by norm_num) (by norm_num)]
  norm_num [int_chars, nat_chars_last, nat_chars_step, List.replicate]

set_option maxRecDepth 4000 in
theorem ts_stream_out_neg_half : ts_stream_out (time_spec_t.ofSecsPair (-1) (1 / 2)) =
    ['-', '1', '.', '5'] ++ List.replicate 15 '0' := by
  have ht : time_spec_t.ofSecsPair (-1) (1 / 2) = ⟨-1, 1 / 2⟩ := by
    norm_num [time_spec_t.ofSecsPair, set_from, qtrunc]
  rw [ht]
  simp only [ts_stream_out, time_spec_t.get_full_secs, time_spec_t.get_frac_secs]
  rw [frac_chars_fixed_eq (1 / 2) 0 (5 * 10 ^ 15) (by norm_num)
    (by norm_num [lead_zeros, lz_go_stop]) (by norm_num [rhe]) (by norm_num) (by norm_num)]
  norm_num [int_chars, nat_chars_last, nat_chars_step, List.replicate]

set_option maxRecDepth 4000 in
theorem ts_stream_out_tiny : ts_stream_out (time_spec_t.ofSecsPair 0 (1 / 100000)) =
    ['0', '.'] ++ List.replicate 15 '0' ++ ['e', '-', '0', '5'] := by
  have ht : time_spec_t.ofSecsPair 0 (1 / 100000) = ⟨0, 1 / 100000⟩ := by
    norm_num [time_spec_t.ofSecsPair, set_from, qtrunc]
  rw [ht]
  simp only [ts_stream_out, time_spec_t.get_full_secs, time_spec_t.get_frac_secs]
  rw [frac_chars_sci_eq (1 / 100000) 4 (10 ^ 15) (by norm_num)
    (by norm_num [lead_zeros, lz_go_stop, lz_go_step]) (by norm_num [rhe]) (by norm_num)
    (by norm_num) (by norm_num)]
  norm_num [int_chars, nat_chars_last, nat_chars_step, List.replicate]

/-! ## Tick-conversion helper lemmas -/

theorem from_ticks_normalized (k : ℤ) (r : ℚ) : normalized (from_ticks k r) := by
  simp only [from_ticks, time_spec_t.ofSecsPair]
  exact set_from_normalized _ _

theorem from_ticks_sum (k : ℤ) (r : ℚ) (hrne : r ≠ 0) :
    ((from_ticks k r).full_secs : ℚ) + (from_ticks k r).frac_secs = (k : ℚ) / r := by
  simp only [from_ticks, time_spec_t.ofSecsPair]
  rw [set_from_sum]
  field_simp
  ring

theorem to_ticks_of_sum (t : time_spec_t) (k : ℤ) (r : ℚ) (hr : 1 ≤ r)
    (hnorm : normalized t)
    (hsum : (t.full_secs : ℚ) + t.frac_secs = (k : ℚ) / r) (hk : 0 ≤ k) :
    t.to_ticks r = k := by
  obtain ⟨hfr0, hfr1⟩ := hnorm
  have hr0 : (0 : ℚ) < r := by linarith
  have hq : qtrunc r = ⌊r⌋ := if_pos hr0.le
  have hkr : 0 ≤ (k : ℚ) / r := div_nonneg (by exact_mod_cast hk) hr0.le
  have hfull : 0 ≤ t.full_secs := by
    have h1 : (-1 : ℚ) < (t.full_secs : ℚ) := by linarith
    have h2 : (-1 : ℤ) < t.full_secs := by exact_mod_cast h1
    omega
  have hmul : ((t.full_secs : ℚ) + t.frac_secs) * r = (k : ℚ) := by
    rw [hsum]; field_simp
  have harg : (t.full_secs : ℚ) * (r - (⌊r⌋ : ℚ)) + t.frac_secs * r
      = ((k - t.full_secs * ⌊r⌋ : ℤ) : ℚ) := by
    push_cast
    linear_combination hmul
  have hn0 : (0 : ℚ) ≤ ((k - t.full_secs * ⌊r⌋ : ℤ) : ℚ) := by
    rw [← harg]
    have hc : (0 : ℚ) ≤ (t.full_secs : ℚ) := by exact_mod_cast hfull
    have h3 := mul_nonneg hc (by linarith [Int.floor_le r] : (0 : ℚ) ≤ r - (⌊r⌋ : ℚ))
    have h4 := mul_nonneg hfr0 hr0.le
    linarith
  simp only [time_spec_t.to_ticks, time_spec_t.get_full_secs, time_spec_t.get_frac_secs, hq]
  rw [harg]
  unfold fast_llround qtrunc
  rw [if_pos (by linarith : (0 : ℚ) ≤ ((k - t.full_secs * ⌊r⌋ : ℤ) : ℚ) + 1 / 2)]
  rw [Int.floor_int_add]
  norm_num


/-! ## Claim theorems -/

/-- C1, counterexample: the claimed round-trip fails for a negative tick
count.  At `ticks = -3`, `tick_rate = 3/2` (a rate `> 0` exactly
representable as a double, no overflow anywhere), `from_ticks` then
`to_ticks` returns `-2`, not `-3`: the truncating division and
`fast_llround`'s truncation both bend toward zero for negative values. -/
theorem c1_roundtrip_counterexample :
    (0 : ℚ) < 3 / 2 ∧ (from_ticks (-3) (3 / 2)).to_ticks (3 / 2) ≠ (-3 : ℤ) := by
  constructor
  · norm_num
  · have h : (from_ticks (-3) (3 / 2)).to_ticks (3 / 2) = -2 := by
      norm_num [from_ticks, time_spec_t.to_ticks, time_spec_t.ofSecsPair, set_from, qtrunc,
        fast_llround, time_spec_t.get_full_secs, time_spec_t.get_frac_secs]
    rw [h]; decide

/-- C1, amended: for every nonnegative tick count `k` and every rational
tick rate `r ≥ 1` (so that the integer divisor `trunc(r)` is nonzero),
`from_ticks(k, r).to_ticks(r) = k` exactly, because both directions use the
matching integer/fractional decomposition of the rate.  Every double rate,
including 200e6 and 61.44e6/27, is such a rational. -/
theorem c1_roundtrip_nonneg_ticks (k : ℤ) (r : ℚ) (hk : 0 ≤ k) (hr : 1 ≤ r) :
    (from_ticks k r).to_ticks r = k := by
  have hrne : r ≠ 0 := by positivity
  exact to_ticks_of_sum _ k r hr (from_ticks_normalized k r) (from_ticks_sum k r hrne) hk

/-- C1, witness: the round-trip at the spec's non-integer-derived rate
61.44e6/27 with a tick count of 2^62. -/
theorem c1_roundtrip_witness :
    (0 : ℤ) ≤ 2 ^ 62 ∧ (1 : ℚ) ≤ 61440000 / 27 ∧
      (from_ticks (2 ^ 62) (61440000 / 27)).to_ticks (61440000 / 27) = 2 ^ 62 :=
  ⟨by decide, by norm_num,
    c1_roundtrip_nonneg_ticks (2 ^ 62) (61440000 / 27) (by decide) (by norm_num)⟩

/-- C2, counterexample: `to_ticks(0)` does not fail: it returns the ordinary
integer 0 (the code is `noexcept` and has no zero-rate guard). -/
theorem c2_zero_rate_counterexample :
    (time_spec_t.ofSecsPair 5 (1 / 4)).to_ticks 0 = 0 := by
  norm_num [time_spec_t.to_ticks, time_spec_t.ofSecsPair, set_from, qtrunc,
    fast_llround, time_spec_t.get_full_secs, time_spec_t.get_frac_secs]

/-- C2, amended: neither conversion reports an invalid-argument error at a
zero rate.  `to_ticks(0)` returns the value 0 for every `time_spec_t`
(`from_ticks(k, 0)` divides by the zero integer divisor `trunc(0)`, which is
undefined behavior in C++, again not a raised error). -/
theorem c2_to_ticks_zero_rate (t : time_spec_t) : t.to_ticks 0 = 0 := by
  norm_num [time_spec_t.to_ticks, fast_llround, qtrunc,
    time_spec_t.get_full_secs, time_spec_t.get_frac_secs]

/-- C3: every construction from a (whole seconds, fractional seconds) pair
normalizes: the resulting fractional component lies in [0, 1) and the exact
sum whole + frac equals the input sum; in particular the constructor at
(5, 1.75) yields whole = 6, frac = 0.75. -/
theorem c3_construction_normalizes :
    (∀ (s : ℤ) (f : ℚ), normalized (set_from s f) ∧
        ((set_from s f).full_secs : ℚ) + (set_from s f).frac_secs = (s : ℚ) + f) ∧
      time_spec_t.ofSecsPair 5 (7 / 4) = ⟨6, 3 / 4⟩ := by
  refine ⟨fun s f => ⟨set_from_normalized s f, set_from_sum s f⟩, ?_⟩
  norm_num [time_spec_t.ofSecsPair, set_from, qtrunc]

/-- C4: every addition and subtraction operator (both operands
`time_spec_t`, or a double right-hand side, binary or in-place), applied to
normalized operands, produces a result whose fractional component is in
[0, 1): every path renormalizes through `set_from`. -/
theorem c4_ops_preserve_invariant (a b : time_spec_t) (ha : normalized a)
    (hb : normalized b) (r : ℚ) :
    normalized (ts_add a b) ∧ normalized (ts_add_real a r) ∧
      normalized (ts_sub a b) ∧ normalized (ts_sub_real a r) ∧
      normalized (ts_add_assign a b) ∧ normalized (ts_add_real_assign a r) ∧
      normalized (ts_sub_assign a b) ∧ normalized (ts_sub_real_assign a r) :=
  ⟨set_from_normalized _ _, set_from_normalized _ _, set_from_normalized _ _,
    set_from_normalized _ _, set_from_normalized _ _, set_from_normalized _ _,
    set_from_normalized _ _, set_from_normalized _ _⟩

/-- C4, witness: the operator invariant applied at concrete normalized
operands. -/
theorem c4_ops_witness :
    normalized (time_spec_t.ofSecsPair 0 (1 / 2)) ∧
      normalized (time_spec_t.ofSecsPair 1 (1 / 4)) ∧
      normalized (ts_add (time_spec_t.ofSecsPair 0 (1 / 2)) (time_spec_t.ofSecsPair 1 (1 / 4))) :=
  ⟨set_from_normalized _ _, set_from_normalized _ _,
    (c4_ops_preserve_invariant _ _ (set_from_normalized _ _) (set_from_normalized _ _)
      (3 / 4)).1⟩

/-- C5, counterexample: at a negative tick rate the truncated
`round(x + 0.5)` is not round-half-up.  For the normalized value
(0, 0.5) and rate -4, `get_tick_count` returns -1 while round-half-up of
0.5 * (-4) is -2, so the claim's "every tick_rate" fails. -/
theorem c5_rounding_counterexample :
    normalized (time_spec_t.ofSecsPair 0 (1 / 2)) ∧
      (time_spec_t.ofSecsPair 0 (1 / 2)).get_tick_count (-4) = -1 ∧
      round_half_up ((time_spec_t.ofSecsPair 0 (1 / 2)).get_frac_secs * (-4)) = -2 := by
  refine ⟨set_from_normalized _ _, ?_, ?_⟩
  · norm_num [time_spec_t.get_tick_count, time_spec_t.ofSecsPair, set_from, qtrunc,
      fast_llround, time_spec_t.get_frac_secs, Int.ceil_eq_iff]
  · norm_num [round_half_up, time_spec_t.ofSecsPair, set_from, qtrunc,
      time_spec_t.get_frac_secs]

/-- C5, amended: for every `time_spec_t` satisfying the normalization
invariant and every nonnegative tick rate, `get_tick_count` equals
round-half-up of `fractional_seconds * tick_rate`: the truncation in
`fast_llround` agrees with the floor because its argument is then
nonnegative. -/
theorem c5_half_up_nonneg_rate (t : time_spec_t) (ht : normalized t) (r : ℚ)
    (hr : 0 ≤ r) :
    t.get_tick_count r = round_half_up (t.get_frac_secs * r) := by
  have hx : 0 ≤ t.get_frac_secs * r := mul_nonneg ht.1 hr
  simp only [time_spec_t.get_tick_count, fast_llround, qtrunc, round_half_up]
  rw [if_pos (by linarith)]

/-- C5, witness: the amended rounding equivalence at (0, 0.25) and rate 8. -/
theorem c5_half_up_witness :
    normalized (time_spec_t.ofSecsPair 0 (1 / 4)) ∧ (0 : ℚ) ≤ 8 ∧
      (time_spec_t.ofSecsPair 0 (1 / 4)).get_tick_count 8 =
        round_half_up ((time_spec_t.ofSecsPair 0 (1 / 4)).get_frac_secs * 8) :=
  ⟨set_from_normalized _ _, by norm_num,
    c5_half_up_nonneg_rate _ (set_from_normalized _ _) 8 (by norm_num)⟩

/-- C6: for all normalized values exactly one of `<`, `==`, `>` holds, and
`<=`/`>=` agree with the disjunction of `<`/`==` and `>`/`==`: the
comparison operators compare whole seconds first, break ties by fractional
seconds, and equality is exact on both components. -/
theorem c6_ordering_total (a b : time_spec_t) (ha : normalized a) (hb : normalized b) :
    ((ts_lt a b ∧ ¬ts_eq a b ∧ ¬ts_gt a b) ∨
        (¬ts_lt a b ∧ ts_eq a b ∧ ¬ts_gt a b) ∨
        (¬ts_lt a b ∧ ¬ts_eq a b ∧ ts_gt a b)) ∧
      (ts_le a b ↔ ts_lt a b ∨ ts_eq a b) ∧ (ts_ge a b ↔ ts_gt a b ∨ ts_eq a b) := by
  simp only [ts_lt, ts_eq, ts_gt, ts_le, ts_ge, time_spec_t.get_full_secs,
    time_spec_t.get_frac_secs]
  rcases lt_trichotomy a.full_secs b.full_secs with h | h | h <;>
    rcases lt_trichotomy a.frac_secs b.frac_secs with h2 | h2 | h2 <;>
    simp_all [le_of_lt, ne_of_lt, ne_of_gt, lt_asymm, le_of_eq, not_lt_of_lt]

/-- C6, witness: the ordering facts applied at the concrete normalized pair
(0, 0) and (0, 0.5). -/
theorem c6_ordering_witness :
    normalized (time_spec_t.ofSecsPair 0 0) ∧
      normalized (time_spec_t.ofSecsPair 0 (1 / 2)) ∧
      (ts_le (time_spec_t.ofSecsPair 0 0) (time_spec_t.ofSecsPair 0 (1 / 2)) ↔
        ts_lt (time_spec_t.ofSecsPair 0 0) (time_spec_t.ofSecsPair 0 (1 / 2)) ∨
          ts_eq (time_spec_t.ofSecsPair 0 0) (time_spec_t.ofSecsPair 0 (1 / 2))) :=
  ⟨set_from_normalized _ _, set_from_normalized _ _,
    (c6_ordering_total _ _ (set_from_normalized _ _) (set_from_normalized _ _)).2.1⟩

/-- C7: `TimeSpec(0,0) + TimeSpec(0, 0.9) + TimeSpec(0, 0.9)` carries across
the 1-second boundary and yields whole = 1, frac = 0.8 (exact rational
arithmetic; the double computation reaches the double nearest 0.8). -/
theorem c7_carry_scenario :
    ts_add (ts_add (time_spec_t.ofSecsPair 0 0) (time_spec_t.ofSecsPair 0 (9 / 10)))
      (time_spec_t.ofSecsPair 0 (9 / 10)) = ⟨1, 4 / 5⟩ := by
  norm_num [ts_add, time_spec_t.ofSecsPair, set_from, qtrunc,
    time_spec_t.get_full_secs, time_spec_t.get_frac_secs]

/-- C8, counterexample: the rendering is not exponent-free.  For the
normalized value (0, 1e-5) the fractional component falls below 1e-4, the
default format switches to scientific notation, and the printed characters
contain an exponent marker. -/
theorem c8_exponent_counterexample :
    normalized (time_spec_t.ofSecsPair 0 (1 / 100000)) ∧
      'e' ∈ ts_stream_out (time_spec_t.ofSecsPair 0 (1 / 100000)) := by
  refine ⟨set_from_normalized _ _, ?_⟩
  rw [ts_stream_out_tiny]
  decide

/-- C8, amended: the rendering concatenates the decimal whole-seconds
integer with the 16-significant-digit fractional rendering stripped of its
leading digit: `TimeSpec(5, 0.25)` renders beginning "5.25" and
`TimeSpec(-1, 0.5)` beginning "-1.5", both without exponent; but a nonzero
fractional component below 1e-4 renders in scientific notation, so an
exponent can appear. -/
theorem c8_render_instances :
    (ts_stream_out (time_spec_t.ofSecsPair 5 (1 / 4))).take 4 = ['5', '.', '2', '5'] ∧
      'e' ∉ ts_stream_out (time_spec_t.ofSecsPair 5 (1 / 4)) ∧
      (ts_stream_out (time_spec_t.ofSecsPair (-1) (1 / 2))).take 4 = ['-', '1', '.', '5'] ∧
      'e' ∉ ts_stream_out (time_spec_t.ofSecsPair (-1) (1 / 2)) ∧
      'e' ∈ ts_stream_out (time_spec_t.ofSecsPair 0 (1 / 100000)) := by
  rw [ts_stream_out_quarter, ts_stream_out_neg_half, ts_stream_out_tiny]
  exact ⟨by decide, by decide, by decide, by decide, by decide⟩

/-- C9: each in-place operator computes exactly the value of its binary
counterpart: both hand the same componentwise sums to the same `set_from`
normalization. -/
theorem c9_inplace_agrees (a b : time_spec_t) (r : ℚ) :
    ts_add_assign a b = ts_add a b ∧ ts_sub_assign a b = ts_sub a b ∧
      ts_add_real_assign a r = ts_add_real a r ∧
      ts_sub_real_assign a r = ts_sub_real a r :=
  ⟨rfl, rfl, rfl, rfl⟩

/-- C10: for a positive tick rate, the divisor `trunc(tick_rate)` used by
`from_ticks`'s integer division is nonzero exactly when `tick_rate ≥ 1`
(equivalently `trunc(tick_rate) ≥ 1`): a strictly positive rate alone does
not suffice, `tick_rate ≥ 1` is the actual precondition. -/
theorem c10_divisor_precondition (r : ℚ) (hr : 0 < r) :
    (qtrunc r ≠ 0 ↔ 1 ≤ r) ∧ (1 ≤ qtrunc r ↔ 1 ≤ r) := by
  have hq : qtrunc r = ⌊r⌋ := if_pos hr.le
  have hle : 1 ≤ ⌊r⌋ ↔ (1 : ℚ) ≤ r := by
    rw [Int.le_floor]; norm_num
  have hnn : 0 ≤ ⌊r⌋ := Int.floor_nonneg.mpr hr.le
  rw [hq]
  constructor
  · constructor
    · intro h; exact hle.mp (by omega)
    · intro h; have := hle.mpr h; omega
  · exact hle

/-- C10, witness: the divisor characterization at the rate 3/2. -/
theorem c10_divisor_witness :
    (0 : ℚ) < 3 / 2 ∧ ((qtrunc (3 / 2) ≠ 0 ↔ (1 : ℚ) ≤ 3 / 2) ∧
      (1 ≤ qtrunc (3 / 2) ↔ (1 : ℚ) ≤ 3 / 2)) :=
  ⟨by norm_num, c10_divisor_precondition (3 / 2) (by norm_num)⟩

end uhd
